import Mathlib

/-!
Verification of the treasury pallet in src/frame/treasury/src/lib.rs.

The pallet state (proposal maps, counters, approval queue) and the ledger
interface (free and reserved balances per account) are embedded as a Lean
state record; the dispatchables propose_spend, reject_proposal and
approve_proposal, and the cycle routine spend_funds, are translated from the
source as pure state transformers.  Machine-integer behaviour that matters is
kept explicit: the u32 field remaining_occurs is decremented with wrapping
semantics (Rust release-mode arithmetic), written as addition of 2^32 - 1
modulo 2^32.  The external SpendFunds runtime hook is modelled as the unit
implementation, which does nothing; the external currency trait is modelled at
its interface boundary (reserve, unreserve, slash_reserved, deposit_creating,
settle) over per-account free and reserved balances.
-/

/-- A spending proposal, from struct Proposal in the source.  Balances are
Nat; occurs and remaining_occurs are u32 values represented as Nat. -/
structure Proposal where
  proposer : Nat
  value : Nat
  beneficiary : Nat
  bond : Nat
  occurs : Nat
  remaining_occurs : Nat
  deriving DecidableEq, Repr

/-- The three dispatch errors of the pallet. -/
inductive PalletError where
  | insufficientProposersBalance
  | invalidIndex
  | tooManyApprovals
  deriving DecidableEq, Repr

/-- Events deposited by the pallet, from enum Event in the source. -/
inductive Event where
  | Proposed (index : Nat)
  | WaitingProposed (index : Nat)
  | WaitingProposalTransfered (index : Nat)
  | Spending (budget : Nat)
  | Awarded (index : Nat) (award : Nat) (beneficiary : Nat)
  | Rejected (index : Nat) (slashed : Nat)
  | Burnt (amount : Nat)
  | Rollover (budget : Nat)
  | Deposit (amount : Nat)
  deriving DecidableEq, Repr

/-- Pallet configuration constants (the Config trait).  Permill values are
stored as parts per million. -/
structure Config where
  proposalBond : Nat
  proposalBondMinimum : Nat
  allowedProposalPeriod : Nat
  spendPeriod : Nat
  burn : Nat
  maxApprovals : Nat
  minimumBalance : Nat
  deriving DecidableEq, Repr

/-- The treasury sovereign account (PalletId.into_account), fixed as 0. -/
def treasuryAccount : Nat := 0

/-- Lookup in a storage map embedded as an association list. -/
def mget : List (Nat × Proposal) → Nat → Option Proposal
  | [], _ => none
  | (k, v) :: rest, i => if k = i then some v else mget rest i

/-- Remove a key from a storage map. -/
def mremove : List (Nat × Proposal) → Nat → List (Nat × Proposal)
  | [], _ => []
  | (k, v) :: rest, i => if k = i then mremove rest i else (k, v) :: mremove rest i

/-- Insert (overwriting) a key in a storage map. -/
def minsert (m : List (Nat × Proposal)) (i : Nat) (p : Proposal) : List (Nat × Proposal) :=
  (i, p) :: mremove m i

/-- Add to one account of a balance table. -/
def addFn (f : Nat → Nat) (a : Nat) (amt : Nat) : Nat → Nat :=
  fun x => if x = a then f a + amt else f x

/-- Subtract (truncating at zero) from one account of a balance table. -/
def subFn (f : Nat → Nat) (a : Nat) (amt : Nat) : Nat → Nat :=
  fun x => if x = a then f a - amt else f x

/-- Full pallet plus ledger state: the four storage records, the approval
queue, and the per-account free and reserved balances. -/
structure State where
  proposalCount : Nat
  proposals : List (Nat × Proposal)
  waitingProposalCount : Nat
  waitingProposals : List (Nat × Proposal)
  approvals : List Nat
  free : Nat → Nat
  reserved : Nat → Nat

/-- Permill multiplication: parts-per-million of x, rounding down, as
computed by sp_arithmetic for Permill * Balance. -/
def permillMul (parts x : Nat) : Nat := parts * x / 1000000

/-- Wrapping decrement of a u32 value (Rust release-mode subtraction of 1):
for n < 2^32 this is n - 1 when n is positive and 2^32 - 1 when n = 0. -/
def wrapSub1 (n : Nat) : Nat := (n + 4294967295) % 4294967296

/-- calculate_bond from the source: the larger of ProposalBondMinimum and
ProposalBond * value. -/
def calculate_bond (cfg : Config) (value : Nat) : Nat :=
  max cfg.proposalBondMinimum (permillMul cfg.proposalBond value)

/-- pot from the source: the treasury account free balance minus the
ledger minimum balance, with saturating subtraction. -/
def pot (cfg : Config) (s : State) : Nat :=
  s.free treasuryAccount - cfg.minimumBalance

/-- propose_spend from the source.  Computes the per-occurrence chunk and the
bond, reserves the bond from the proposer (failing with
InsufficientProposersBalance), and inserts the proposal into the active set
when the block position is inside the allowed proposal period, otherwise into
the waiting set. -/
def propose_spend (cfg : Config) (proposer value beneficiary chunks currentBlock : Nat)
    (s : State) : Except PalletError Unit × State × List Event :=
  if currentBlock % cfg.spendPeriod < cfg.allowedProposalPeriod then
    let chunk := if 0 < chunks then value / chunks else value
    let bond := calculate_bond cfg value
    if bond ≤ s.free proposer then
      let c := s.proposalCount
      (Except.ok (),
       { s with
          free := subFn s.free proposer bond,
          reserved := addFn s.reserved proposer bond,
          proposalCount := c + 1,
          proposals := minsert s.proposals c
            { proposer := proposer, value := chunk, beneficiary := beneficiary,
              bond := bond, occurs := chunks, remaining_occurs := chunks } },
       [Event.Proposed c])
    else
      (Except.error PalletError.insufficientProposersBalance, s, [])
  else
    let chunk := if 0 < chunks then value / chunks else value
    let bond := calculate_bond cfg value
    if bond ≤ s.free proposer then
      let w := s.waitingProposalCount
      (Except.ok (),
       { s with
          free := subFn s.free proposer bond,
          reserved := addFn s.reserved proposer bond,
          waitingProposalCount := w + 1,
          waitingProposals := minsert s.waitingProposals w
            { proposer := proposer, value := chunk, beneficiary := beneficiary,
              bond := bond, occurs := chunks, remaining_occurs := chunks } },
       [Event.WaitingProposed w])
    else
      (Except.error PalletError.insufficientProposersBalance, s, [])

/-- reject_proposal from the source: takes the active proposal (failing with
InvalidIndex) and slashes the reserved bond from the proposer; the slashed
imbalance goes to the external OnSlash sink. -/
def reject_proposal (proposalId : Nat) (s : State) :
    Except PalletError Unit × State × List Event :=
  match mget s.proposals proposalId with
  | none => (Except.error PalletError.invalidIndex, s, [])
  | some p =>
    let slashed := min p.bond (s.reserved p.proposer)
    (Except.ok (),
     { s with
        proposals := mremove s.proposals proposalId,
        reserved := subFn s.reserved p.proposer slashed },
     [Event.Rejected proposalId p.bond])

/-- approve_proposal from the source: requires the active proposal to exist
(InvalidIndex) and appends the index to the bounded approvals vector
(TooManyApprovals when the vector is at capacity). -/
def approve_proposal (cfg : Config) (proposalId : Nat) (s : State) :
    Except PalletError Unit × State × List Event :=
  if mget s.proposals proposalId = none then
    (Except.error PalletError.invalidIndex, s, [])
  else if s.approvals.length < cfg.maxApprovals then
    (Except.ok (), { s with approvals := s.approvals ++ [proposalId] }, [])
  else
    (Except.error PalletError.tooManyApprovals, s, [])

/-- Accumulator threaded through the approval-queue retain pass of
spend_funds: remaining budget, active map, ledger balances, the missed_any
flag, the accumulated positive imbalance, the retained queue entries, and the
emitted events. -/
structure PayAcc where
  budget : Nat
  proposals : List (Nat × Proposal)
  free : Nat → Nat
  reserved : Nat → Nat
  missed : Bool
  imbalance : Nat
  kept : List Nat
  events : List Event

/-- One iteration of the retain closure in spend_funds: pay the proposal when
its value fits the remaining budget (decrement remaining_occurs with u32
wrapping, remove or re-insert the record, unreserve the bond, credit the
beneficiary, drop from the queue), keep it and set missed_any when it does
not, and drop vanished indices. -/
def payStep (acc : PayAcc) (index : Nat) : PayAcc :=
  match mget acc.proposals index with
  | none => acc
  | some p =>
    if p.value ≤ acc.budget then
      let rem := wrapSub1 p.remaining_occurs
      let props :=
        if rem = 0 then mremove acc.proposals index
        else minsert acc.proposals index { p with remaining_occurs := rem }
      let unres := min p.bond (acc.reserved p.proposer)
      { budget := acc.budget - p.value,
        proposals := props,
        free := addFn (addFn acc.free p.proposer unres) p.beneficiary p.value,
        reserved := subFn acc.reserved p.proposer unres,
        missed := acc.missed,
        imbalance := acc.imbalance + p.value,
        kept := acc.kept,
        events := acc.events ++ [Event.Awarded index p.value p.beneficiary] }
    else
      { acc with missed := true, kept := acc.kept ++ [index] }

/-- Accumulator for the waiting-proposal promotion loop of spend_funds. -/
structure PromAcc where
  proposalCount : Nat
  proposals : List (Nat × Proposal)
  waitingCount : Nat
  waiting : List (Nat × Proposal)
  events : List Event

/-- One iteration of the promotion loop: when waiting slot i holds a
proposal, insert it into the active set at the current active counter and bump
the counter; in all cases store w - 1 into the waiting counter (w is the
pre-loop count), remove slot i, and emit the two events with the arguments the
source passes. -/
def promoteStep (w : Nat) (acc : PromAcc) (i : Nat) : PromAcc :=
  let c := acc.proposalCount
  let acc1 :=
    match mget acc.waiting i with
    | some wp =>
      { acc with proposalCount := c + 1, proposals := minsert acc.proposals c wp }
    | none => acc
  { acc1 with
      waitingCount := w - 1,
      waiting := mremove acc1.waiting i,
      events := acc1.events ++ [Event.WaitingProposalTransfered w, Event.Proposed c] }

/-- The promotion loop body folded over a list of raw indices. -/
def promoteList (w : Nat) : List Nat → PromAcc → PromAcc
  | [], acc => acc
  | i :: rest, acc => promoteList w rest (promoteStep w acc i)

/-- spend_funds from the source: read the pot, run the retain pass over the
approval queue, apply the (unit, no-op) SpendFunds hook, burn a fraction of
the surplus when nothing was missed, settle the accumulated imbalance against
the treasury account keeping it alive, run the waiting-promotion loop for
i in 0..w, and emit Rollover. -/
def spend_funds (cfg : Config) (s : State) : State × List Event :=
  let budget0 := pot cfg s
  let acc0 : PayAcc :=
    { budget := budget0, proposals := s.proposals, free := s.free,
      reserved := s.reserved, missed := false, imbalance := 0, kept := [],
      events := [Event.Spending budget0] }
  let acc := s.approvals.foldl payStep acc0
  let afterBurn :=
    if acc.missed then (acc.budget, acc.imbalance, acc.events)
    else
      let burn := min (permillMul cfg.burn acc.budget) acc.budget
      (acc.budget - burn, acc.imbalance + burn, acc.events ++ [Event.Burnt burn])
  let budget1 := afterBurn.1
  let imb1 := afterBurn.2.1
  let evs1 := afterBurn.2.2
  let free1 :=
    if cfg.minimumBalance + imb1 ≤ acc.free treasuryAccount then
      subFn acc.free treasuryAccount imb1
    else acc.free
  let w := s.waitingProposalCount
  let prom0 : PromAcc :=
    { proposalCount := s.proposalCount, proposals := acc.proposals,
      waitingCount := w, waiting := s.waitingProposals, events := evs1 }
  let prom := promoteList w (List.range w) prom0
  ({ proposalCount := prom.proposalCount,
     proposals := prom.proposals,
     waitingProposalCount := prom.waitingCount,
     waitingProposals := prom.waiting,
     approvals := acc.kept,
     free := free1,
     reserved := acc.reserved },
   prom.events ++ [Event.Rollover budget1])

/-! Concrete configurations and states used to evaluate the model. -/

/-- A sample configuration: zero bond fraction, minimum bond 10, proposal
window 50 of a 100-block spend period, zero burn, queue capacity 100,
ledger minimum balance 1. -/
def cfgA : Config :=
  { proposalBond := 0, proposalBondMinimum := 10, allowedProposalPeriod := 50,
    spendPeriod := 100, burn := 0, maxApprovals := 100, minimumBalance := 1 }

/-- Initial balances: the treasury account 0 holds 1000 and account 1
holds 100. -/
def freeA : Nat → Nat := fun a => if a = 0 then 1000 else if a = 1 then 100 else 0

/-- An empty pallet over the sample balances. -/
def baseState : State :=
  { proposalCount := 0, proposals := [], waitingProposalCount := 0,
    waitingProposals := [], approvals := [], free := freeA,
    reserved := fun _ => 0 }

/-- A state holding one approved non-recurring proposal: value 5, bond 3,
occurs 0, with the bond reserved from proposer 1 and a pot of 10. -/
def c1State : State :=
  { proposalCount := 1,
    proposals := [(0, { proposer := 1, value := 5, beneficiary := 2, bond := 3,
                        occurs := 0, remaining_occurs := 0 })],
    waitingProposalCount := 0, waitingProposals := [], approvals := [0],
    free := fun a => if a = 0 then 11 else 0,
    reserved := fun a => if a = 1 then 3 else 0 }

/-- Reachable trace for the u32 underflow: propose a non-recurring spend of 5
inside the proposal window, then approve it. -/
def c2s1 : State := (propose_spend cfgA 1 5 2 0 0 baseState).2.1

/-- Second step of the trace: approve proposal 0. -/
def c2s2 : State := (approve_proposal cfgA 0 c2s1).2.1

/-- Third step of the trace: run one disbursement cycle. -/
def c2s3 : State := (spend_funds cfgA c2s2).1

/-- A state with exactly one waiting proposal, for the waiting-counter
behaviour of the promotion loop. -/
def c4State : State :=
  { proposalCount := 0, proposals := [],
    waitingProposalCount := 1,
    waitingProposals := [(0, { proposer := 1, value := 5, beneficiary := 2,
                               bond := 10, occurs := 0, remaining_occurs := 0 })],
    approvals := [], free := freeA, reserved := fun _ => 0 }

/-- Recurring-proposal trace, round 0: propose value 30 in 3 chunks at
block 0 (bond 10 reserved from proposer 1). -/
def c6s1 : State := (propose_spend cfgA 1 30 2 3 0 baseState).2.1

/-- Round 1 approval. -/
def c6s2 : State := (approve_proposal cfgA 0 c6s1).2.1

/-- Round 1 cycle. -/
def c6s3 : State := (spend_funds cfgA c6s2).1

/-- Round 2 approval. -/
def c6s4 : State := (approve_proposal cfgA 0 c6s3).2.1

/-- Round 2 cycle. -/
def c6s5 : State := (spend_funds cfgA c6s4).1

/-- Round 3 approval. -/
def c6s6 : State := (approve_proposal cfgA 0 c6s5).2.1

/-- Round 3 cycle. -/
def c6s7 : State := (spend_funds cfgA c6s6).1

/-- A state whose single queued proposal (value 5000) exceeds the pot
of 999. -/
def c5State : State :=
  { proposalCount := 1,
    proposals := [(0, { proposer := 1, value := 5000, beneficiary := 2, bond := 3,
                        occurs := 0, remaining_occurs := 0 })],
    waitingProposalCount := 0, waitingProposals := [], approvals := [0],
    free := freeA, reserved := fun a => if a = 1 then 3 else 0 }

/-- A state with two approved value-6 proposals against a pot of 10: the
first payment drains the budget to 4, so the second proposal is deferred
mid-cycle even though its value is below the starting pot. -/
def c5bState : State :=
  { proposalCount := 2,
    proposals := [(0, { proposer := 1, value := 6, beneficiary := 2, bond := 3,
                        occurs := 0, remaining_occurs := 0 }),
                  (1, { proposer := 1, value := 6, beneficiary := 2, bond := 3,
                        occurs := 0, remaining_occurs := 0 })],
    waitingProposalCount := 0, waitingProposals := [], approvals := [0, 1],
    free := fun a => if a = 0 then 11 else 0,
    reserved := fun a => if a = 1 then 6 else 0 }

/-- A state with one waiting proposal at slot 0 awaiting promotion. -/
def c3State : State :=
  { proposalCount := 2, proposals := [],
    waitingProposalCount := 1,
    waitingProposals := [(0, { proposer := 1, value := 7, beneficiary := 2,
                               bond := 10, occurs := 2, remaining_occurs := 2 })],
    approvals := [], free := freeA, reserved := fun _ => 0 }

/-- A configuration whose approval queue is already at capacity zero. -/
def cfgC7 : Config :=
  { proposalBond := 0, proposalBondMinimum := 10, allowedProposalPeriod := 50,
    spendPeriod := 100, burn := 0, maxApprovals := 0, minimumBalance := 1 }

/-- A state with a proposal at index 5 only, and a pauper proposer 9. -/
def c7State : State :=
  { proposalCount := 6,
    proposals := [(5, { proposer := 1, value := 5, beneficiary := 2, bond := 3,
                        occurs := 0, remaining_occurs := 0 })],
    waitingProposalCount := 0, waitingProposals := [], approvals := [],
    free := fun a => if a = 0 then 1000 else 0,
    reserved := fun _ => 0 }

/-- A state with one recurring proposal (occurs 4, two left) at index 0,
eligible for double approval. -/
def c9State : State :=
  { proposalCount := 1,
    proposals := [(0, { proposer := 1, value := 5, beneficiary := 2, bond := 3,
                        occurs := 4, remaining_occurs := 4 })],
    waitingProposalCount := 0, waitingProposals := [], approvals := [],
    free := freeA, reserved := fun a => if a = 1 then 3 else 0 }

/-- A state whose treasury account is empty. -/
def c10State : State :=
  { proposalCount := 0, proposals := [], waitingProposalCount := 0,
    waitingProposals := [], approvals := [], free := fun _ => 0,
    reserved := fun _ => 0 }

/-- The proposal record left in the active set by the trace c2s1-c2s3: its
remaining_occurs has wrapped around to 2^32 - 1. -/
def c2bad : Proposal :=
  { proposer := 1, value := 5, beneficiary := 2, bond := 10, occurs := 0,
    remaining_occurs := 4294967295 }

/-! Association-list lemmas for the storage maps. -/

theorem mget_mremove (m : List (Nat × Proposal)) (k i : Nat) :
    mget (mremove m k) i = if i = k then none else mget m i := by
  induction m with
  | nil => simp [mget, mremove]
  | cons kv rest ih =>
    obtain ⟨k', v⟩ := kv
    by_cases hik : i = k
    · subst hik
      by_cases hk : k' = i
      · simp [mremove, hk, ih]
      · simp [mremove, mget, hk, ih]
    · by_cases hk : k' = k
      · subst hk
        have hki : ¬ k' = i := by omega
        simp [mremove, mget, hki, ih, hik]
      · by_cases hki : k' = i
        · simp [mremove, mget, hk, hki, hik]
        · simp [mremove, mget, hk, hki, ih, hik]

theorem mget_minsert_self (m : List (Nat × Proposal)) (k : Nat) (p : Proposal) :
    mget (minsert m k p) k = some p := by
  simp [minsert, mget]

theorem mget_minsert_ne (m : List (Nat × Proposal)) (k i : Nat) (p : Proposal)
    (h : i ≠ k) : mget (minsert m k p) i = mget m i := by
  have hk : ¬ k = i := fun hh => h hh.symm
  simp [minsert, mget, mget_mremove, h, hk]

theorem mget_mem (m : List (Nat × Proposal)) (k : Nat) (p : Proposal)
    (h : mget m k = some p) : (k, p) ∈ m := by
  induction m with
  | nil => simp [mget] at h
  | cons kv rest ih =>
    obtain ⟨k', v⟩ := kv
    by_cases hk : k' = k
    · simp [mget, hk] at h
      subst hk
      subst h
      exact List.mem_cons_self _ _
    · simp [mget, hk] at h
      exact List.mem_cons_of_mem _ (ih h)

/-! Lemmas about the retain pass of spend_funds. -/

theorem payStep_defer_eq (acc : PayAcc) (i : Nat) (p : Proposal)
    (hp : mget acc.proposals i = some p) (hb : acc.budget < p.value) :
    payStep acc i = { acc with missed := true, kept := acc.kept ++ [i] } := by
  unfold payStep
  rw [hp]
  simp only [if_neg (by omega : ¬ p.value ≤ acc.budget)]

theorem payStep_deferInv (acc : PayAcc) (j i : Nat) (p : Proposal)
    (hp : mget acc.proposals i = some p) (hb : acc.budget < p.value) :
    mget (payStep acc j).proposals i = some p ∧ (payStep acc j).budget < p.value := by
  cases hm : mget acc.proposals j with
  | none =>
    constructor
    · simp only [payStep, hm]
      exact hp
    · simp only [payStep, hm]
      exact hb
  | some q =>
    by_cases hv : q.value ≤ acc.budget
    · have hji : ¬ i = j := by
        intro h
        subst h
        rw [hm] at hp
        injection hp with h2
        subst h2
        omega
      constructor
      · by_cases hr : wrapSub1 q.remaining_occurs = 0
        · simp only [payStep, hm, if_pos hv, hr, ite_true, mget_mremove, hji, ite_false]
          exact hp
        · simp only [payStep, hm, if_pos hv, hr, ite_false]
          rw [mget_minsert_ne _ _ _ _ hji]
          exact hp
      · simp only [payStep, hm, if_pos hv]
        omega
    · constructor
      · simp only [payStep, hm, if_neg hv]
        exact hp
      · simp only [payStep, hm, if_neg hv]
        exact hb

theorem payStep_kept_mono (acc : PayAcc) (j x : Nat) (h : x ∈ acc.kept) :
    x ∈ (payStep acc j).kept := by
  unfold payStep
  cases hm : mget acc.proposals j with
  | none => exact h
  | some q =>
    by_cases hv : q.value ≤ acc.budget
    · simp only [if_pos hv]
      exact h
    · simp only [if_neg hv]
      exact List.mem_append_left _ h

theorem payStep_missed_mono (acc : PayAcc) (j : Nat) (h : acc.missed = true) :
    (payStep acc j).missed = true := by
  unfold payStep
  cases hm : mget acc.proposals j with
  | none => exact h
  | some q =>
    by_cases hv : q.value ≤ acc.budget
    · simp only [if_pos hv]
      exact h
    · simp only [if_neg hv]

theorem payStep_burnt_sub (acc : PayAcc) (j : Nat) (b : Nat)
    (h : Event.Burnt b ∈ (payStep acc j).events) : Event.Burnt b ∈ acc.events := by
  revert h
  unfold payStep
  cases hm : mget acc.proposals j with
  | none => exact fun h => h
  | some q =>
    by_cases hv : q.value ≤ acc.budget
    · simp only [if_pos hv]
      intro h
      rcases List.mem_append.mp h with h1 | h1
      · exact h1
      · simp at h1
    · simp only [if_neg hv]
      exact fun h => h

theorem payPass_deferInv (q : List Nat) : ∀ (acc : PayAcc) (i : Nat) (p : Proposal),
    mget acc.proposals i = some p → acc.budget < p.value →
    mget (q.foldl payStep acc).proposals i = some p ∧
      (q.foldl payStep acc).budget < p.value := by
  induction q with
  | nil => exact fun acc i p hp hb => ⟨hp, hb⟩
  | cons j rest ih =>
    intro acc i p hp hb
    rw [List.foldl_cons]
    obtain ⟨h1, h2⟩ := payStep_deferInv acc j i p hp hb
    exact ih _ i p h1 h2

theorem payPass_kept_mono (q : List Nat) : ∀ (acc : PayAcc) (x : Nat),
    x ∈ acc.kept → x ∈ (q.foldl payStep acc).kept := by
  induction q with
  | nil => exact fun acc x h => h
  | cons j rest ih =>
    intro acc x h
    rw [List.foldl_cons]
    exact ih _ x (payStep_kept_mono acc j x h)

theorem payPass_missed_mono (q : List Nat) : ∀ (acc : PayAcc),
    acc.missed = true → (q.foldl payStep acc).missed = true := by
  induction q with
  | nil => exact fun acc h => h
  | cons j rest ih =>
    intro acc h
    rw [List.foldl_cons]
    exact ih _ (payStep_missed_mono acc j h)

theorem payPass_burnt_sub (q : List Nat) : ∀ (acc : PayAcc) (b : Nat),
    Event.Burnt b ∈ (q.foldl payStep acc).events → Event.Burnt b ∈ acc.events := by
  induction q with
  | nil => exact fun acc b h => h
  | cons j rest ih =>
    intro acc b h
    rw [List.foldl_cons] at h
    exact payStep_burnt_sub acc j b (ih _ b h)

theorem payPass_defer_main (q : List Nat) : ∀ (acc : PayAcc) (i : Nat) (p : Proposal),
    i ∈ q → mget acc.proposals i = some p → acc.budget < p.value →
    i ∈ (q.foldl payStep acc).kept ∧ (q.foldl payStep acc).missed = true ∧
      mget (q.foldl payStep acc).proposals i = some p := by
  induction q with
  | nil =>
    intro acc i p h
    simp at h
  | cons j rest ih =>
    intro acc i p hmem hp hb
    rw [List.foldl_cons]
    by_cases hij : i = j
    · subst hij
      rw [payStep_defer_eq acc i p hp hb]
      refine ⟨payPass_kept_mono rest _ i (List.mem_append_right _ (List.mem_singleton.mpr rfl)), ?_, ?_⟩
      · exact payPass_missed_mono rest _ rfl
      · exact (payPass_deferInv rest
          { acc with missed := true, kept := acc.kept ++ [i] } i p hp hb).1
    · have hmem2 : i ∈ rest := by
        rcases List.mem_cons.mp hmem with h | h
        · exact absurd h hij
        · exact h
      obtain ⟨h1, h2⟩ := payStep_deferInv acc j i p hp hb
      exact ih _ i p hmem2 h1 h2

theorem payStep_other_pres (acc : PayAcc) (j i : Nat) (h : ¬ j = i) :
    mget (payStep acc j).proposals i = mget acc.proposals i := by
  have hij : ¬ i = j := fun hh => h hh.symm
  cases hm : mget acc.proposals j with
  | none => simp only [payStep, hm]
  | some q =>
    by_cases hv : q.value ≤ acc.budget
    · by_cases hr : wrapSub1 q.remaining_occurs = 0
      · simp only [payStep, hm, if_pos hv, hr, ite_true, mget_mremove, hij, ite_false]
      · simp only [payStep, hm, if_pos hv, hr, ite_false]
        exact mget_minsert_ne _ _ _ _ hij
    · simp only [payStep, hm, if_neg hv]

theorem payPass_notin_pres (q : List Nat) : ∀ (acc : PayAcc) (i : Nat), i ∉ q →
    mget (List.foldl payStep acc q).proposals i = mget acc.proposals i := by
  induction q with
  | nil => exact fun acc i _ => rfl
  | cons j rest ih =>
    intro acc i h
    have hji : ¬ j = i := by
      intro hh
      exact h (by rw [hh]; exact List.mem_cons_self _ _)
    have hrest : i ∉ rest := fun hh => h (List.mem_cons_of_mem _ hh)
    rw [List.foldl_cons, ih _ i hrest, payStep_other_pres acc j i hji]

theorem payStep_none_pres (acc : PayAcc) (j k : Nat)
    (h : mget acc.proposals k = none) : mget (payStep acc j).proposals k = none := by
  cases hm : mget acc.proposals j with
  | none =>
    simp only [payStep, hm]
    exact h
  | some q =>
    have hkj : ¬ k = j := by
      intro hh
      rw [hh, hm] at h
      cases h
    by_cases hv : q.value ≤ acc.budget
    · by_cases hr : wrapSub1 q.remaining_occurs = 0
      · simp only [payStep, hm, if_pos hv, hr, ite_true, mget_mremove, hkj, ite_false]
        exact h
      · simp only [payStep, hm, if_pos hv, hr, ite_false]
        rw [mget_minsert_ne _ _ _ _ hkj]
        exact h
    · simp only [payStep, hm, if_neg hv]
      exact h

theorem payPass_none_pres (q : List Nat) : ∀ (acc : PayAcc) (k : Nat),
    mget acc.proposals k = none →
    mget (List.foldl payStep acc q).proposals k = none := by
  induction q with
  | nil => exact fun acc k h => h
  | cons j rest ih =>
    intro acc k h
    rw [List.foldl_cons]
    exact ih _ k (payStep_none_pres acc j k h)

/-! Lemmas about the waiting-promotion loop of spend_funds. -/

theorem promoteStep_count_mono (w : Nat) (acc : PromAcc) (i : Nat) :
    acc.proposalCount ≤ (promoteStep w acc i).proposalCount := by
  unfold promoteStep
  cases hm : mget acc.waiting i with
  | none => exact Nat.le_refl _
  | some wp => exact Nat.le_succ _

theorem promoteList_count_mono (w : Nat) (l : List Nat) : ∀ (acc : PromAcc),
    acc.proposalCount ≤ (promoteList w l acc).proposalCount := by
  induction l with
  | nil => exact fun acc => Nat.le_refl _
  | cons i rest ih =>
    intro acc
    exact Nat.le_trans (promoteStep_count_mono w acc i) (ih _)

theorem promoteList_count_lower (w : Nat) (l : List Nat) (acc : PromAcc) (n : Nat)
    (h : n ≤ acc.proposalCount) : n ≤ (promoteList w l acc).proposalCount :=
  Nat.le_trans h (promoteList_count_mono w l acc)

theorem promoteStep_prop_pres (w : Nat) (acc : PromAcc) (i j : Nat) (p : Proposal)
    (hj : j < acc.proposalCount) (hp : mget acc.proposals j = some p) :
    mget (promoteStep w acc i).proposals j = some p ∧
      j < (promoteStep w acc i).proposalCount := by
  unfold promoteStep
  cases hm : mget acc.waiting i with
  | none => exact ⟨hp, hj⟩
  | some wp =>
    refine ⟨?_, by simp only; omega⟩
    simp only
    rw [mget_minsert_ne _ _ _ _ (by omega : j ≠ acc.proposalCount)]
    exact hp

theorem promoteList_prop_pres (w : Nat) (l : List Nat) : ∀ (acc : PromAcc) (j : Nat) (p : Proposal),
    j < acc.proposalCount → mget acc.proposals j = some p →
    mget (promoteList w l acc).proposals j = some p := by
  induction l with
  | nil => exact fun acc j p _ hp => hp
  | cons i rest ih =>
    intro acc j p hj hp
    obtain ⟨h1, h2⟩ := promoteStep_prop_pres w acc i j p hj hp
    exact ih _ j p h2 h1

theorem promoteStep_none_pres (w : Nat) (acc : PromAcc) (i k : Nat)
    (hk : k < acc.proposalCount) (h : mget acc.proposals k = none) :
    mget (promoteStep w acc i).proposals k = none ∧
      k < (promoteStep w acc i).proposalCount := by
  unfold promoteStep
  cases hm : mget acc.waiting i with
  | none => exact ⟨h, hk⟩
  | some wp =>
    refine ⟨?_, by simp only; omega⟩
    simp only
    rw [mget_minsert_ne _ _ _ _ (by omega : k ≠ acc.proposalCount)]
    exact h

theorem promoteList_none_pres (w : Nat) (l : List Nat) : ∀ (acc : PromAcc) (k : Nat),
    k < acc.proposalCount → mget acc.proposals k = none →
    mget (promoteList w l acc).proposals k = none := by
  induction l with
  | nil => exact fun acc k _ h => h
  | cons i rest ih =>
    intro acc k hk h
    obtain ⟨h1, h2⟩ := promoteStep_none_pres w acc i k hk h
    exact ih _ k h2 h1

theorem promoteStep_waiting_none (w : Nat) (acc : PromAcc) (i k : Nat)
    (h : mget acc.waiting k = none) : mget (promoteStep w acc i).waiting k = none := by
  unfold promoteStep
  cases hm : mget acc.waiting i with
  | none =>
    simp only [mget_mremove]
    by_cases hk : k = i
    · simp [hk]
    · simp [hk, h]
  | some wp =>
    simp only [mget_mremove]
    by_cases hk : k = i
    · simp [hk]
    · simp [hk, h]

theorem promoteList_waiting_none (w : Nat) (l : List Nat) : ∀ (acc : PromAcc) (k : Nat),
    mget acc.waiting k = none → mget (promoteList w l acc).waiting k = none := by
  induction l with
  | nil => exact fun acc k h => h
  | cons i rest ih =>
    intro acc k h
    exact ih _ k (promoteStep_waiting_none w acc i k h)

theorem promoteStep_waiting_ne (w : Nat) (acc : PromAcc) (i k : Nat) (h : ¬ k = i) :
    mget (promoteStep w acc i).waiting k = mget acc.waiting k := by
  unfold promoteStep
  cases hm : mget acc.waiting i with
  | none => simp only [mget_mremove, h, ite_false]
  | some wp => simp only [mget_mremove, h, ite_false]

theorem promoteList_removes (w : Nat) (l : List Nat) : ∀ (acc : PromAcc) (k : Nat),
    k ∈ l → mget (promoteList w l acc).waiting k = none := by
  induction l with
  | nil =>
    intro acc k h
    simp at h
  | cons i rest ih =>
    intro acc k hmem
    by_cases hk : k = i
    · subst hk
      show mget (promoteList w rest (promoteStep w acc k)).waiting k = none
      apply promoteList_waiting_none
      cases hm : mget acc.waiting k with
      | none => simp [promoteStep, hm, mget_mremove]
      | some wp => simp [promoteStep, hm, mget_mremove]
    · have : k ∈ rest := by
        rcases List.mem_cons.mp hmem with h | h
        · exact absurd h hk
        · exact h
      exact ih _ k this

theorem promoteList_promotes (w : Nat) (l : List Nat) : ∀ (acc : PromAcc) (k : Nat) (p : Proposal),
    k ∈ l → mget acc.waiting k = some p →
    ∃ j, acc.proposalCount ≤ j ∧ mget (promoteList w l acc).proposals j = some p := by
  induction l with
  | nil =>
    intro acc k p h
    simp at h
  | cons i rest ih =>
    intro acc k p hmem hp
    by_cases hk : k = i
    · subst hk
      refine ⟨acc.proposalCount, Nat.le_refl _, ?_⟩
      show mget (promoteList w rest (promoteStep w acc k)).proposals acc.proposalCount = some p
      apply promoteList_prop_pres
      · unfold promoteStep
        rw [hp]
        simp only
        omega
      · unfold promoteStep
        rw [hp]
        simp only
        exact mget_minsert_self _ _ _
    · have hmem2 : k ∈ rest := by
        rcases List.mem_cons.mp hmem with h | h
        · exact absurd h hk
        · exact h
      have hp2 : mget (promoteStep w acc i).waiting k = some p := by
        rw [promoteStep_waiting_ne w acc i k hk]
        exact hp
      obtain ⟨j, hj1, hj2⟩ := ih _ k p hmem2 hp2
      exact ⟨j, Nat.le_trans (promoteStep_count_mono w acc i) hj1, hj2⟩

theorem promoteList_promotes_from (w : Nat) (l : List Nat) (acc : PromAcc) (k : Nat)
    (p : Proposal) (n : Nat) (hn : n ≤ acc.proposalCount) (hk : k ∈ l)
    (hp : mget acc.waiting k = some p) :
    ∃ j, n ≤ j ∧ mget (promoteList w l acc).proposals j = some p := by
  obtain ⟨j, hj1, hj2⟩ := promoteList_promotes w l acc k p hk hp
  exact ⟨j, Nat.le_trans hn hj1, hj2⟩

theorem promoteStep_waitingCount (w : Nat) (acc : PromAcc) (i : Nat) :
    (promoteStep w acc i).waitingCount = w - 1 := by
  unfold promoteStep
  cases hm : mget acc.waiting i with
  | none => rfl
  | some wp => rfl

theorem promoteList_waitingCount (w : Nat) (l : List Nat) : ∀ (acc : PromAcc),
    l ≠ [] → (promoteList w l acc).waitingCount = w - 1 := by
  induction l with
  | nil => exact fun acc h => absurd rfl h
  | cons i rest ih =>
    intro acc _
    show (promoteList w rest (promoteStep w acc i)).waitingCount = w - 1
    cases rest with
    | nil => exact promoteStep_waitingCount w acc i
    | cons a b => exact ih _ (List.cons_ne_nil a b)

theorem promoteStep_burnt_sub (w : Nat) (acc : PromAcc) (i : Nat) (b : Nat)
    (h : Event.Burnt b ∈ (promoteStep w acc i).events) : Event.Burnt b ∈ acc.events := by
  revert h
  unfold promoteStep
  cases hm : mget acc.waiting i with
  | none =>
    intro h
    rcases List.mem_append.mp h with h1 | h1
    · exact h1
    · simp at h1
  | some wp =>
    intro h
    rcases List.mem_append.mp h with h1 | h1
    · exact h1
    · simp at h1

theorem promoteList_burnt_sub (w : Nat) (l : List Nat) : ∀ (acc : PromAcc) (b : Nat),
    Event.Burnt b ∈ (promoteList w l acc).events → Event.Burnt b ∈ acc.events := by
  induction l with
  | nil => exact fun acc b h => h
  | cons i rest ih =>
    intro acc b h
    exact promoteStep_burnt_sub w acc i b (ih _ b h)

/-! Claim theorems. -/

/-- Claim C10: pot computes the treasury free balance minus the ledger
minimum balance with saturating subtraction: whenever the free balance is at
or below the minimum balance, pot returns zero instead of underflowing, and
otherwise it differs from the free balance by exactly the minimum balance, so
the starting budget of a cycle is never negative. -/
theorem pot_saturating (cfg : Config) (s : State) :
    (s.free treasuryAccount ≤ cfg.minimumBalance → pot cfg s = 0) ∧
    (cfg.minimumBalance ≤ s.free treasuryAccount →
      pot cfg s + cfg.minimumBalance = s.free treasuryAccount) := by
  unfold pot
  omega

/-- Witness for pot_saturating at an empty treasury account. -/
theorem pot_saturating_witness : pot cfgA c10State = 0 :=
  (pot_saturating cfgA c10State).1 (by decide)

/-- Claim C7: the three caller-visible errors are returned to the caller with
the pallet state (both proposal maps and counters, the approval queue and the
ledger balances) exactly unchanged and no event emitted:
InsufficientProposersBalance from propose_spend when the bond exceeds the
free balance of the proposer, InvalidIndex from reject_proposal and
approve_proposal for an absent active index, and TooManyApprovals from
approve_proposal when the queue is at capacity. -/
theorem errors_leave_state_unchanged (cfg : Config) (pr v ben ch blk i j : Nat)
    (p : Proposal) (s : State)
    (h1 : s.free pr < calculate_bond cfg v)
    (h2 : mget s.proposals i = none)
    (h3 : mget s.proposals j = some p)
    (h4 : cfg.maxApprovals ≤ s.approvals.length) :
    propose_spend cfg pr v ben ch blk s =
      (Except.error PalletError.insufficientProposersBalance, s, []) ∧
    reject_proposal i s = (Except.error PalletError.invalidIndex, s, []) ∧
    approve_proposal cfg i s = (Except.error PalletError.invalidIndex, s, []) ∧
    approve_proposal cfg j s = (Except.error PalletError.tooManyApprovals, s, []) := by
  refine ⟨?_, ?_, ?_, ?_⟩
  · unfold propose_spend
    by_cases hw : blk % cfg.spendPeriod < cfg.allowedProposalPeriod
    · rw [if_pos hw, if_neg (by omega : ¬ calculate_bond cfg v ≤ s.free pr)]
    · rw [if_neg hw, if_neg (by omega : ¬ calculate_bond cfg v ≤ s.free pr)]
  · simp only [reject_proposal, h2]
  · simp only [approve_proposal, h2, ite_true]
  · have h3n : ¬ mget s.proposals j = none := by
      rw [h3]
      intro hh
      cases hh
    simp only [approve_proposal, if_neg h3n,
      if_neg (by omega : ¬ s.approvals.length < cfg.maxApprovals)]

/-- Witness for errors_leave_state_unchanged: queue capacity zero, proposal
present only at index 5, proposer 9 penniless. -/
theorem errors_leave_state_unchanged_witness :
    propose_spend cfgC7 9 100 2 0 0 c7State =
      (Except.error PalletError.insufficientProposersBalance, c7State, []) ∧
    reject_proposal 0 c7State = (Except.error PalletError.invalidIndex, c7State, []) ∧
    approve_proposal cfgC7 0 c7State = (Except.error PalletError.invalidIndex, c7State, []) ∧
    approve_proposal cfgC7 5 c7State =
      (Except.error PalletError.tooManyApprovals, c7State, []) :=
  errors_leave_state_unchanged cfgC7 9 100 2 0 0 0 5
    { proposer := 1, value := 5, beneficiary := 2, bond := 3, occurs := 0,
      remaining_occurs := 0 }
    c7State (by decide) (by decide) (by decide) (by decide)

/-- Claim C8: a successful propose_spend reserves from the proposer exactly
max(ProposalBondMinimum, ProposalBond * value), computed on the original
value, and the stored record's per-occurrence value equals value / occurs
(integer division) when occurs is positive and value otherwise; the record
lands in the active map at the active counter inside the proposal window and
in the waiting map at the waiting counter outside it. -/
theorem propose_spend_bond_and_chunk (cfg : Config) (pr v ben ch blk : Nat) (s : State)
    (h : calculate_bond cfg v ≤ s.free pr) :
    (propose_spend cfg pr v ben ch blk s).1 = Except.ok () ∧
    (propose_spend cfg pr v ben ch blk s).2.1.reserved pr =
      s.reserved pr + max cfg.proposalBondMinimum (permillMul cfg.proposalBond v) ∧
    (blk % cfg.spendPeriod < cfg.allowedProposalPeriod →
      mget (propose_spend cfg pr v ben ch blk s).2.1.proposals s.proposalCount =
        some { proposer := pr, value := if 0 < ch then v / ch else v,
               beneficiary := ben,
               bond := max cfg.proposalBondMinimum (permillMul cfg.proposalBond v),
               occurs := ch, remaining_occurs := ch }) ∧
    (¬ blk % cfg.spendPeriod < cfg.allowedProposalPeriod →
      mget (propose_spend cfg pr v ben ch blk s).2.1.waitingProposals
          s.waitingProposalCount =
        some { proposer := pr, value := if 0 < ch then v / ch else v,
               beneficiary := ben,
               bond := max cfg.proposalBondMinimum (permillMul cfg.proposalBond v),
               occurs := ch, remaining_occurs := ch }) := by
  by_cases hw : blk % cfg.spendPeriod < cfg.allowedProposalPeriod
  · refine ⟨?_, ?_, fun _ => ?_, fun hc => absurd hw hc⟩
    · simp only [propose_spend, if_pos hw, if_pos h]
    · simp only [propose_spend, if_pos hw, if_pos h, addFn]
      simp [calculate_bond]
    · simp only [propose_spend, if_pos hw, if_pos h]
      exact mget_minsert_self _ _ _
  · refine ⟨?_, ?_, fun hc => absurd hc hw, fun _ => ?_⟩
    · simp only [propose_spend, if_neg hw, if_pos h]
    · simp only [propose_spend, if_neg hw, if_pos h, addFn]
      simp [calculate_bond]
    · simp only [propose_spend, if_neg hw, if_pos h]
      exact mget_minsert_self _ _ _

/-- Witness for propose_spend_bond_and_chunk: value 30 in 3 chunks proposed
at block 0, inside the proposal window, bond 10. -/
theorem propose_spend_bond_and_chunk_witness :
    (propose_spend cfgA 1 30 2 3 0 baseState).1 = Except.ok () ∧
    (propose_spend cfgA 1 30 2 3 0 baseState).2.1.reserved 1 =
      baseState.reserved 1 +
        max cfgA.proposalBondMinimum (permillMul cfgA.proposalBond 30) ∧
    (0 % cfgA.spendPeriod < cfgA.allowedProposalPeriod →
      mget (propose_spend cfgA 1 30 2 3 0 baseState).2.1.proposals
          baseState.proposalCount =
        some { proposer := 1, value := if 0 < 3 then 30 / 3 else 30,
               beneficiary := 2,
               bond := max cfgA.proposalBondMinimum (permillMul cfgA.proposalBond 30),
               occurs := 3, remaining_occurs := 3 }) ∧
    (¬ 0 % cfgA.spendPeriod < cfgA.allowedProposalPeriod →
      mget (propose_spend cfgA 1 30 2 3 0 baseState).2.1.waitingProposals
          baseState.waitingProposalCount =
        some { proposer := 1, value := if 0 < 3 then 30 / 3 else 30,
               beneficiary := 2,
               bond := max cfgA.proposalBondMinimum (permillMul cfgA.proposalBond 30),
               occurs := 3, remaining_occurs := 3 }) :=
  propose_spend_bond_and_chunk cfgA 1 30 2 3 0 baseState (by decide)

/-- Claim C1 (evaluated at the failing input): paying the approved
non-recurring proposal of c1State drops it from the queue, unreserves the
full bond 3 back to proposer 1 and credits beneficiary 2 with exactly 5, but
the u32 decrement of remaining_occurs wraps from 0 to 2^32 - 1, so the
proposal is re-inserted into the active set instead of being removed. -/
theorem nonrecurring_payment_leaves_proposal :
    mget (spend_funds cfgA c1State).1.proposals 0 =
      some { proposer := 1, value := 5, beneficiary := 2, bond := 3, occurs := 0,
             remaining_occurs := 4294967295 } ∧
    (spend_funds cfgA c1State).1.approvals = [] ∧
    (spend_funds cfgA c1State).1.reserved 1 = 0 ∧
    (spend_funds cfgA c1State).1.free 1 = 3 ∧
    (spend_funds cfgA c1State).1.free 2 = 5 := by
  decide

/-- Claim C2 (evaluated at a reachable failing input): the three-step trace
propose (value 5, occurs 0, inside the window), approve, spend_funds ends in
a state whose active proposal 0 has remaining_occurs 2^32 - 1 while occurs is
0, violating the invariant remaining_occurs less-or-equal occurs. -/
theorem remaining_occurs_invariant_violated :
    c2s1.proposalCount = 1 ∧ c2s1.reserved 1 = 10 ∧
    c2s2.approvals = [0] ∧
    mget c2s3.proposals 0 = some c2bad ∧
    c2bad.occurs < c2bad.remaining_occurs := by
  decide

/-- Claim C6 (evaluated at the failing input): for the recurring proposal of
trace c6s1-c6s7 (occurs 3, bond 10 reserved once), three approve-and-cycle
rounds decrement remaining_occurs 3, 2, 1 and remove the record only after
the third payment, but only the first round returns the bond: rounds two and
three find nothing reserved (reserved balance of proposer 1 stays 0 and the
free balance stays 100), so the unreserve of the bond cannot succeed again,
contradicting the per-round refund stated by the claim and the source's own
debug assertion that unreserve leaves no residual. -/
theorem recurring_bond_refund_trace :
    c6s1.proposalCount = 1 ∧
    c6s1.reserved 1 = 10 ∧ c6s1.free 1 = 90 ∧
    mget c6s3.proposals 0 =
      some { proposer := 1, value := 10, beneficiary := 2, bond := 10, occurs := 3,
             remaining_occurs := 2 } ∧
    c6s3.reserved 1 = 0 ∧ c6s3.free 1 = 100 ∧
    mget c6s5.proposals 0 =
      some { proposer := 1, value := 10, beneficiary := 2, bond := 10, occurs := 3,
             remaining_occurs := 1 } ∧
    c6s5.reserved 1 = 0 ∧ c6s5.free 1 = 100 ∧
    mget c6s7.proposals 0 = none ∧
    c6s7.reserved 1 = 0 ∧ c6s7.free 1 = 100 ∧
    c6s7.free 2 = 30 := by
  decide

/-- Claim C4 counterexample: the waiting-set counter is not monotonically
non-decreasing across spend_funds: from c4State, whose waiting counter is 1,
one cycle lowers the counter to 0. -/
theorem waiting_counter_decreases :
    (spend_funds cfgA c4State).1.waitingProposalCount <
      c4State.waitingProposalCount := by
  decide

/-- Claim C4 amended: the active-set counter never decreases across any of
the four operations and the waiting-set counter never decreases across
propose_spend, reject_proposal and approve_proposal, while spend_funds stores
w - 1 into the waiting counter (w its pre-cycle value, saturating at zero);
proposal indices are still never reused within a collection: under the
invariant that stored keys lie below their collection counter, the slot at
the counter is unoccupied and propose_spend allocates exactly there,
overwriting no existing record in either collection; spend_funds never
re-populates a vacant active index below the pre-cycle counter and never adds
to the waiting map, and reject_proposal creates no record. -/
theorem counters_monotonicity_amended (cfg : Config) (pr v ben ch blk i j : Nat)
    (s : State) :
    s.proposalCount ≤ (propose_spend cfg pr v ben ch blk s).2.1.proposalCount ∧
    s.waitingProposalCount ≤
      (propose_spend cfg pr v ben ch blk s).2.1.waitingProposalCount ∧
    (reject_proposal i s).2.1.proposalCount = s.proposalCount ∧
    (reject_proposal i s).2.1.waitingProposalCount = s.waitingProposalCount ∧
    (approve_proposal cfg j s).2.1.proposalCount = s.proposalCount ∧
    (approve_proposal cfg j s).2.1.waitingProposalCount = s.waitingProposalCount ∧
    s.proposalCount ≤ (spend_funds cfg s).1.proposalCount ∧
    (spend_funds cfg s).1.waitingProposalCount = s.waitingProposalCount - 1 ∧
    ((∀ kv ∈ s.proposals, kv.1 < s.proposalCount) →
      mget s.proposals s.proposalCount = none) ∧
    ((∀ kv ∈ s.waitingProposals, kv.1 < s.waitingProposalCount) →
      mget s.waitingProposals s.waitingProposalCount = none) ∧
    ((∀ kv ∈ s.proposals, kv.1 < s.proposalCount) →
      ∀ k q, mget s.proposals k = some q →
        mget (propose_spend cfg pr v ben ch blk s).2.1.proposals k = some q) ∧
    ((∀ kv ∈ s.waitingProposals, kv.1 < s.waitingProposalCount) →
      ∀ k q, mget s.waitingProposals k = some q →
        mget (propose_spend cfg pr v ben ch blk s).2.1.waitingProposals k
          = some q) ∧
    (∀ k, k < s.proposalCount → mget s.proposals k = none →
      mget (spend_funds cfg s).1.proposals k = none) ∧
    (∀ k, mget s.waitingProposals k = none →
      mget (spend_funds cfg s).1.waitingProposals k = none) ∧
    (∀ k, mget s.proposals k = none →
      mget (reject_proposal i s).2.1.proposals k = none) := by
  refine ⟨?_, ?_, ?_, ?_, ?_, ?_, ?_, ?_, ?_, ?_, ?_, ?_, ?_, ?_, ?_⟩
  · unfold propose_spend
    by_cases hw : blk % cfg.spendPeriod < cfg.allowedProposalPeriod
    · rw [if_pos hw]
      by_cases h : calculate_bond cfg v ≤ s.free pr
      · rw [if_pos h]
        exact Nat.le_succ _
      · rw [if_neg h]
    · rw [if_neg hw]
      by_cases h : calculate_bond cfg v ≤ s.free pr
      · rw [if_pos h]
      · rw [if_neg h]
  · unfold propose_spend
    by_cases hw : blk % cfg.spendPeriod < cfg.allowedProposalPeriod
    · rw [if_pos hw]
      by_cases h : calculate_bond cfg v ≤ s.free pr
      · rw [if_pos h]
      · rw [if_neg h]
    · rw [if_neg hw]
      by_cases h : calculate_bond cfg v ≤ s.free pr
      · rw [if_pos h]
        exact Nat.le_succ _
      · rw [if_neg h]
  · unfold reject_proposal
    cases hm : mget s.proposals i with
    | none => rfl
    | some p => rfl
  · unfold reject_proposal
    cases hm : mget s.proposals i with
    | none => rfl
    | some p => rfl
  · unfold approve_proposal
    by_cases hm : mget s.proposals j = none
    · rw [if_pos hm]
    · rw [if_neg hm]
      by_cases hl : s.approvals.length < cfg.maxApprovals
      · rw [if_pos hl]
      · rw [if_neg hl]
  · unfold approve_proposal
    by_cases hm : mget s.proposals j = none
    · rw [if_pos hm]
    · rw [if_neg hm]
      by_cases hl : s.approvals.length < cfg.maxApprovals
      · rw [if_pos hl]
      · rw [if_neg hl]
  · simp only [spend_funds]
    exact promoteList_count_lower _ _ _ _ (Nat.le_refl _)
  · simp only [spend_funds]
    cases hw : s.waitingProposalCount with
    | zero => rfl
    | succ n =>
      rw [promoteList_waitingCount (n + 1) (List.range (n + 1)) _
        (by simp [List.range_succ])]
  · intro hA
    cases hm : mget s.proposals s.proposalCount with
    | none => rfl
    | some q =>
      exact absurd
        (hA _ (mget_mem _ _ _ hm) : s.proposalCount < s.proposalCount)
        (Nat.lt_irrefl _)
  · intro hW
    cases hm : mget s.waitingProposals s.waitingProposalCount with
    | none => rfl
    | some q =>
      exact absurd
        (hW _ (mget_mem _ _ _ hm) :
          s.waitingProposalCount < s.waitingProposalCount)
        (Nat.lt_irrefl _)
  · intro hA k q hk
    have hklt : k < s.proposalCount := hA _ (mget_mem _ _ _ hk)
    by_cases hw : blk % cfg.spendPeriod < cfg.allowedProposalPeriod
    · by_cases h : calculate_bond cfg v ≤ s.free pr
      · simp only [propose_spend, if_pos hw, if_pos h]
        rw [mget_minsert_ne _ _ _ _ (by omega : k ≠ s.proposalCount)]
        exact hk
      · simp only [propose_spend, if_pos hw, if_neg h]
        exact hk
    · by_cases h : calculate_bond cfg v ≤ s.free pr
      · simp only [propose_spend, if_neg hw, if_pos h]
        exact hk
      · simp only [propose_spend, if_neg hw, if_neg h]
        exact hk
  · intro hW k q hk
    have hklt : k < s.waitingProposalCount := hW _ (mget_mem _ _ _ hk)
    by_cases hw : blk % cfg.spendPeriod < cfg.allowedProposalPeriod
    · by_cases h : calculate_bond cfg v ≤ s.free pr
      · simp only [propose_spend, if_pos hw, if_pos h]
        exact hk
      · simp only [propose_spend, if_pos hw, if_neg h]
        exact hk
    · by_cases h : calculate_bond cfg v ≤ s.free pr
      · simp only [propose_spend, if_neg hw, if_pos h]
        rw [mget_minsert_ne _ _ _ _ (by omega : k ≠ s.waitingProposalCount)]
        exact hk
      · simp only [propose_spend, if_neg hw, if_neg h]
        exact hk
  · intro k hklt hnone
    simp only [spend_funds]
    apply promoteList_none_pres
    · exact hklt
    · exact payPass_none_pres s.approvals _ k hnone
  · intro k hnone
    simp only [spend_funds]
    exact promoteList_waiting_none _ _ _ k hnone
  · intro k hnone
    cases hm : mget s.proposals i with
    | none =>
      simp only [reject_proposal, hm]
      exact hnone
    | some q =>
      simp only [reject_proposal, hm, mget_mremove]
      by_cases hki : k = i
      · simp [hki]
      · simp only [hki, ite_false]
        exact hnone

/-- Witness for counters_monotonicity_amended at c4State: both allocation
slots are unoccupied and the cycle stores w - 1 into the waiting counter. -/
theorem counters_monotonicity_amended_witness :
    mget c4State.proposals c4State.proposalCount = none ∧
    mget c4State.waitingProposals c4State.waitingProposalCount = none ∧
    (spend_funds cfgA c4State).1.waitingProposalCount =
      c4State.waitingProposalCount - 1 := by
  obtain ⟨h1, h2, h3, h4, h5, h6, h7, h8, h9, h10, h11, h12, h13, h14, h15⟩ :=
    counters_monotonicity_amended cfgA 1 5 2 0 0 0 0 c4State
  exact ⟨h9 (by decide), h10 (by decide), h8⟩

/-- Claim C5: when a queued proposal's value exceeds the remaining budget at
the moment the retain pass reaches its first queue entry (the starting pot
less everything paid before it, expressed as the budget of the accumulator
after folding the preceding queue prefix), one run of spend_funds keeps its
index in the approval queue, leaves its stored record unchanged, and performs
no burn (no Burnt event is emitted), because the deferral sets missed_any. -/
theorem insufficient_budget_defers_and_skips_burn (cfg : Config) (s : State)
    (q1 q2 : List Nat) (i : Nat) (p : Proposal)
    (hsplit : s.approvals = q1 ++ i :: q2)
    (hnotin : i ∉ q1)
    (hp : mget s.proposals i = some p)
    (hbud : (List.foldl payStep
      { budget := pot cfg s, proposals := s.proposals, free := s.free,
        reserved := s.reserved, missed := false, imbalance := 0, kept := [],
        events := [Event.Spending (pot cfg s)] } q1).budget < p.value)
    (hcount : i < s.proposalCount) :
    i ∈ (spend_funds cfg s).1.approvals ∧
    mget (spend_funds cfg s).1.proposals i = some p ∧
    ∀ b, Event.Burnt b ∉ (spend_funds cfg s).2 := by
  have hpB : mget (List.foldl payStep
      { budget := pot cfg s, proposals := s.proposals, free := s.free,
        reserved := s.reserved, missed := false, imbalance := 0, kept := [],
        events := [Event.Spending (pot cfg s)] } q1).proposals i = some p := by
    rw [payPass_notin_pres q1 _ i hnotin]
    exact hp
  have hmain := payPass_defer_main (i :: q2)
    (List.foldl payStep
      { budget := pot cfg s, proposals := s.proposals, free := s.free,
        reserved := s.reserved, missed := false, imbalance := 0, kept := [],
        events := [Event.Spending (pot cfg s)] } q1) i p
    (List.mem_cons_self _ _) hpB hbud
  obtain ⟨hk, hmissed, hprop⟩ := hmain
  refine ⟨?_, ?_, ?_⟩
  · simp only [spend_funds, hsplit, List.foldl_append]
    exact hk
  · simp only [spend_funds, hsplit, List.foldl_append]
    apply promoteList_prop_pres
    · exact hcount
    · exact hprop
  · intro b hb
    simp only [spend_funds, hsplit, List.foldl_append] at hb
    rcases List.mem_append.mp hb with h1 | h1
    · have h2 := promoteList_burnt_sub _ _ _ b h1
      rw [hmissed] at h2
      simp only [ite_true] at h2
      have h3 := payPass_burnt_sub (i :: q2) _ b h2
      have h4 := payPass_burnt_sub q1 _ b h3
      simp at h4
    · simp at h1

/-- Witness for insufficient_budget_defers_and_skips_burn: in c5bState the
first value-6 payment drains the pot from 10 to 4, deferring the second
value-6 proposal, which stays queued with its record intact. -/
theorem insufficient_budget_defers_and_skips_burn_witness :
    1 ∈ (spend_funds cfgA c5bState).1.approvals ∧
    mget (spend_funds cfgA c5bState).1.proposals 1 =
      some { proposer := 1, value := 6, beneficiary := 2, bond := 3,
             occurs := 0, remaining_occurs := 0 } :=
  ⟨(insufficient_budget_defers_and_skips_burn cfgA c5bState [0] [] 1
      { proposer := 1, value := 6, beneficiary := 2, bond := 3,
        occurs := 0, remaining_occurs := 0 }
      (by decide) (by decide) (by decide) (by decide) (by decide)).1,
   (insufficient_budget_defers_and_skips_burn cfgA c5bState [0] [] 1
      { proposer := 1, value := 6, beneficiary := 2, bond := 3,
        occurs := 0, remaining_occurs := 0 }
      (by decide) (by decide) (by decide) (by decide) (by decide)).2.1⟩

/-- Claim C3: during one run of spend_funds every proposal in the waiting set
at the start of the cycle is removed from the waiting set and re-inserted
into the active set at a new active index (at or above the pre-cycle active
counter), so afterwards the waiting set holds no proposal at any key; the
hypothesis is the reachability invariant that every stored waiting key lies
below the waiting counter. -/
theorem spend_funds_promotes_all_waiting (cfg : Config) (s : State)
    (hinv : s.waitingProposals.all
      (fun kv => kv.1 < s.waitingProposalCount) = true) :
    (∀ k, mget (spend_funds cfg s).1.waitingProposals k = none) ∧
    (∀ k q, mget s.waitingProposals k = some q →
      ∃ j, s.proposalCount ≤ j ∧
        mget (spend_funds cfg s).1.proposals j = some q) := by
  constructor
  · intro k
    simp only [spend_funds]
    by_cases hk : k < s.waitingProposalCount
    · exact promoteList_removes _ _ _ k (List.mem_range.mpr hk)
    · apply promoteList_waiting_none
      cases hmk : mget s.waitingProposals k with
      | none => rfl
      | some q =>
        exfalso
        have hall := List.all_eq_true.mp hinv _ (mget_mem _ _ _ hmk)
        exact hk (by simpa using hall)
  · intro k q hq
    have hk : k < s.waitingProposalCount := by
      have hall := List.all_eq_true.mp hinv _ (mget_mem _ _ _ hq)
      simpa using hall
    simp only [spend_funds]
    exact promoteList_promotes_from _ _ _ k q _ (Nat.le_refl _)
      (List.mem_range.mpr hk) hq

/-- Witness for spend_funds_promotes_all_waiting: the single waiting
proposal of c3State is gone from the waiting map after the cycle. -/
theorem spend_funds_promotes_all_waiting_witness :
    mget (spend_funds cfgA c3State).1.waitingProposals 0 = none :=
  (spend_funds_promotes_all_waiting cfgA c3State (by decide)).1 0

/-- Claim C9: approve_proposal performs no duplicate check: for an active
index already queued, a second approval below capacity also succeeds and
appends a second copy of the index, so one proposal occupies two queue slots
and is processed once per copy during a cycle: with budget for both copies
and at least two remaining occurrences, the beneficiary is credited exactly
twice the per-occurrence value and both queue entries are consumed. -/
theorem approve_duplicate_pays_per_copy (cfg : Config) (s : State) (i : Nat) (p : Proposal)
    (hp : mget s.proposals i = some p)
    (hq : s.approvals = [])
    (hcap : 2 ≤ cfg.maxApprovals)
    (hrem : 2 ≤ p.remaining_occurs)
    (hrem2 : p.remaining_occurs < 4294967296)
    (hbud : 2 * p.value ≤ pot cfg s)
    (hben : ¬ p.beneficiary = treasuryAccount)
    (hbp : ¬ p.beneficiary = p.proposer) :
    (approve_proposal cfg i s).1 = Except.ok () ∧
    (approve_proposal cfg i s).2.1.approvals = [i] ∧
    (approve_proposal cfg i (approve_proposal cfg i s).2.1).1 = Except.ok () ∧
    (approve_proposal cfg i (approve_proposal cfg i s).2.1).2.1.approvals = [i, i] ∧
    (spend_funds cfg
        (approve_proposal cfg i (approve_proposal cfg i s).2.1).2.1).1.free p.beneficiary
      = s.free p.beneficiary + 2 * p.value ∧
    (spend_funds cfg
        (approve_proposal cfg i (approve_proposal cfg i s).2.1).2.1).1.approvals = [] := by
  have hnone : ¬ mget s.proposals i = none := by
    rw [hp]
    intro hh
    cases hh
  have h1 : approve_proposal cfg i s = (Except.ok (), { s with approvals := [i] }, []) := by
    unfold approve_proposal
    rw [if_neg hnone, if_pos (by rw [hq]; simpa using by omega)]
    rw [hq]
    simp
  have h2 : approve_proposal cfg i { s with approvals := [i] } =
      (Except.ok (), { s with approvals := [i, i] }, []) := by
    unfold approve_proposal
    rw [if_neg hnone, if_pos (by simpa using by omega)]
    rfl
  simp only [pot] at hbud
  have hv1 : p.value ≤ s.free treasuryAccount - cfg.minimumBalance := by omega
  have hv2 : p.value ≤ s.free treasuryAccount - cfg.minimumBalance - p.value := by omega
  have hr1 : wrapSub1 p.remaining_occurs = p.remaining_occurs - 1 := by
    unfold wrapSub1
    omega
  have hr1ne : ¬ (p.remaining_occurs - 1 = 0) := by omega
  have hr2 : wrapSub1 (p.remaining_occurs - 1) = p.remaining_occurs - 2 := by
    unfold wrapSub1
    omega
  refine ⟨by simp only [h1], by simp only [h1], by simp only [h1, h2],
    by simp only [h1, h2], ?_, ?_⟩
  · simp only [h1, h2]
    simp only [spend_funds, pot, List.foldl, payStep, hp, if_pos hv1, hr1, hr1ne, ite_false,
      mget_minsert_self, if_pos hv2, hr2, ite_apply, subFn, addFn, ite_self, hben, hbp]
    simp only [if_true]
    omega
  · simp only [h1, h2]
    simp only [spend_funds, pot, List.foldl, payStep, hp, if_pos hv1, hr1, hr1ne, ite_false,
      mget_minsert_self, if_pos hv2, hr2]

/-- Witness for approve_duplicate_pays_per_copy: index 0 of c9State is
approved twice and paid twice in one cycle. -/
theorem approve_duplicate_pays_per_copy_witness :
    (approve_proposal cfgA 0 c9State).1 = Except.ok () ∧
    (approve_proposal cfgA 0 c9State).2.1.approvals = [0] ∧
    (approve_proposal cfgA 0 (approve_proposal cfgA 0 c9State).2.1).1 = Except.ok () ∧
    (approve_proposal cfgA 0 (approve_proposal cfgA 0 c9State).2.1).2.1.approvals = [0, 0] ∧
    (spend_funds cfgA
        (approve_proposal cfgA 0 (approve_proposal cfgA 0 c9State).2.1).2.1).1.free 2
      = c9State.free 2 + 2 * 5 ∧
    (spend_funds cfgA
        (approve_proposal cfgA 0 (approve_proposal cfgA 0 c9State).2.1).2.1).1.approvals = [] :=
  approve_duplicate_pays_per_copy cfgA c9State 0
    { proposer := 1, value := 5, beneficiary := 2, bond := 3, occurs := 4,
      remaining_occurs := 4 }
    (by decide) (by decide) (by decide) (by decide) (by decide) (by decide)
    (by decide) (by decide)
